import Mathlib

/-!
FlightSurety oracle server (`src/server/server.js`)

A shallow embedding of the oracle server: the bootstrap that registers the
oracle accounts and fills the `Oracles` list, and the `OracleRequest` event
handler that answers flight status requests.

JavaScript values are modelled only as far as the server touches them.  web3 1.x
decodes every `uintN` of a call result or of an event to its decimal string, so
the request index of an event is a decimal string and the value returned by
`getMyIndexes` is an array of decimal strings.  The draws of `Math.random()` are
doubles of the interval [0, 1), and the product of line 55 is rounded as a double.
-/

namespace FlightSurety

/-- An account address. -/
abbrev Address := String

/-- The JavaScript values that reach the comparison `oracle.index == reqIndex`. -/
inductive JSValue where
  | undefined
  | null
  | str (s : String)
  | arr (xs : List String)
deriving DecidableEq, Repr

/-- The result of `Array.prototype.toString`, that is `join(",")`. -/
def arrayToString (xs : List String) : String :=
  ",".intercalate xs

/-- The JavaScript operator `==` (IsLooselyEqual) on the values above.  Two arrays
are equal only when they are the same object, and the operands compared by the
server are never the same object. -/
def looseEq : JSValue → JSValue → Bool
  | .undefined, .undefined => true
  | .undefined, .null => true
  | .null, .undefined => true
  | .null, .null => true
  | .str a, .str b => a == b
  | .arr xs, .str b => arrayToString xs == b
  | .str a, .arr ys => a == arrayToString ys
  | _, _ => false

/-- The decimal string web3 hands out for a decoded `uintN`. -/
def decodedUint (n : Nat) : JSValue :=
  .str (toString n)

/-- The array of decimal strings web3 hands out for a decoded `uint8[]`. -/
def decodedUintArray (ns : List Nat) : JSValue :=
  .arr (ns.map toString)

def ORACLE_OFFSET : Nat := 20
def ORACLE_COUNT : Nat := 40

def STATUS_CODE_UNKNOWN : Nat := 0
def STATUS_CODE_ON_TIME : Nat := 10
def STATUS_CODE_LATE_AIRLINE : Nat := 20
def STATUS_CODE_LATE_WEATHER : Nat := 30
def STATUS_CODE_LATE_TECHNICAL : Nat := 40
def STATUS_CODE_LATE_OTHER : Nat := 50

def STATUS_CODES : List Nat :=
  [STATUS_CODE_UNKNOWN, STATUS_CODE_ON_TIME, STATUS_CODE_LATE_AIRLINE,
   STATUS_CODE_LATE_WEATHER, STATUS_CODE_LATE_TECHNICAL, STATUS_CODE_LATE_OTHER]

/-- An entry of the `Oracles` list: `address` is `accounts[i]` (`none` when that
read is out of bounds, JavaScript `undefined`), `index` is the `result` handed to
the `getMyIndexes` callback. -/
structure Oracle where
  address : Option Address
  index : JSValue
deriving DecidableEq, Repr

/-- The `returnValues` of a decoded `OracleRequest` event. -/
structure ReturnValues where
  index : Nat
  airline : Address
  flight : String
  timestamp : Nat
deriving DecidableEq, Repr

/-- An event object as delivered to the subscription callback; `returnValues` is
`none` when the property is missing. -/
structure Event where
  returnValues : Option ReturnValues
deriving DecidableEq, Repr

/-- What the server does to the outside world: console output and calls on the
`flightSuretyApp` contract. -/
inductive Effect where
  | logError (error : String)
  | logEvent (eventValue : ReturnValues)
  | logRegistered (address : Option Address)
  | logResponse (address : Option Address) (statusCode : Option Nat)
  | registerOracle (sender : Option Address) (ether : Nat) (gas : Nat)
  | getMyIndexes (sender : Option Address)
  | submitOracleResponse (sender : Option Address) (index : Nat) (airline : Address)
      (flight : String) (timestamp : Nat) (statusCode : Option Nat)
deriving DecidableEq, Repr

/-- Rounding of a natural number to 53 significant bits, to nearest and ties to even:
the significand rounding of an IEEE 754 double. -/
def roundToDouble (n : Nat) : Nat :=
  let s := n.log2 + 1 - 53
  let q := n / 2 ^ s
  let rem := n % 2 ^ s
  if 2 ^ s < 2 * rem ∨ (2 * rem = 2 ^ s ∧ q % 2 = 1) then (q + 1) * 2 ^ s else q * 2 ^ s

/-- A double of the interval [0, 1), the values `Math.random()` returns: the number
`mantissa / 2 ^ exponent` with a significand of at most 53 bits and an exponent down to
that of the smallest subnormal double. -/
structure UnitDouble where
  mantissa : Nat
  exponent : Nat
  mantissa_lt : mantissa < 2 ^ 53
  exponent_le : exponent ≤ 1074
  below_one : mantissa < 2 ^ exponent

/-- The number a double of the interval [0, 1) denotes. -/
def UnitDouble.value (r : UnitDouble) : ℚ :=
  (r.mantissa : ℚ) / 2 ^ r.exponent

/-- `Math.floor(r * STATUS_CODES.length)` for a draw `r` of `Math.random()`, in double
arithmetic: the exact product `mantissa * 6 / 2 ^ exponent` is rounded to a double and
the double is floored. -/
def randomIndex (r : UnitDouble) : Int :=
  ((roundToDouble (r.mantissa * STATUS_CODES.length) / 2 ^ r.exponent : Nat) : Int)

/-- Reading `xs[k]` for an integer `k`: `none` (JavaScript `undefined`) outside the
bounds. -/
def arrayGet (xs : List Nat) (k : Int) : Option Nat :=
  if k < 0 then none else xs[k.toNat]?

/-- Line 55: `STATUS_CODES[Math.floor(Math.random() * STATUS_CODES.length)]`. -/
def randomStatusCode (r : UnitDouble) : Option Nat :=
  arrayGet STATUS_CODES (randomIndex r)

/-- The body of the `Oracles.forEach` callback (lines 65-73): the effects issued
so far are extended by one `submitOracleResponse` when the match test passes. -/
def forEachBody (eventValue : ReturnValues) (statusCode : Option Nat)
    (issued : List Effect) (oracle : Oracle) : List Effect :=
  if looseEq oracle.index (decodedUint eventValue.index) then
    issued ++ [Effect.submitOracleResponse oracle.address eventValue.index
      eventValue.airline eventValue.flight eventValue.timestamp statusCode]
  else
    issued

/-- `Oracles.forEach(...)`: the callback runs on every entry in list order. -/
def oraclesForEach (Oracles : List Oracle) (eventValue : ReturnValues)
    (statusCode : Option Nat) (issued : List Effect) : List Effect :=
  Oracles.foldl (forEachBody eventValue statusCode) issued

/-- The outcome of one run of the `OracleRequest` handler: the effects issued in
order, how many times `Math.random()` was called, and whether the run ended
in a `TypeError`. -/
structure HandlerRun where
  effects : List Effect
  draws : Nat
  threw : Bool
deriving DecidableEq, Repr

/-- The `OracleRequest` handler (lines 50-74).  `random k` is the value of the
`k`-th call of `Math.random()` made by this run. -/
def handleOracleRequest (Oracles : List Oracle) (random : Nat → UnitDouble)
    (error : Option String) (event : Option Event) : HandlerRun :=
  let logged : List Effect :=
    match error with
    | some e => [Effect.logError e]
    | none => []
  let statusCode := randomStatusCode (random 0)
  match event with
  | none => { effects := logged, draws := 1, threw := true }
  | some ev =>
    match ev.returnValues with
    | none => { effects := logged, draws := 1, threw := true }
    | some eventValue =>
      { effects := oraclesForEach Oracles eventValue statusCode
          (logged ++ [Effect.logEvent eventValue]),
        draws := 1,
        threw := false }

/-- The `submitOracleResponse` calls among a list of effects. -/
def submissions (effects : List Effect) : List Effect :=
  effects.filter fun e =>
    match e with
    | .submitOracleResponse .. => true
    | _ => false

/-- The match test of line 66 for one registry entry. -/
def matchTest (reqIndex : Nat) (oracle : Oracle) : Bool :=
  looseEq oracle.index (decodedUint reqIndex)

/-- The call issued at line 68 for an entry that passed the match test. -/
def responseOf (eventValue : ReturnValues) (statusCode : Option Nat) (oracle : Oracle) : Effect :=
  Effect.submitOracleResponse oracle.address eventValue.index
    eventValue.airline eventValue.flight eventValue.timestamp statusCode

/-- The callback handed to `send` at line 69: whatever `error` and `result` are,
it writes one line to the console. -/
def submitCallback (address : Option Address) (statusCode : Option Nat)
    (_error : Option String) : List Effect :=
  [Effect.logResponse address statusCode]

/-- The callbacks of the submissions among `issued`, fired in the order of issue;
`outcome k` is the error reported to the callback of the `k`-th submission. -/
def settle (outcome : Nat → Option String) : Nat → List Effect → List Effect
  | _, [] => []
  | k, Effect.submitOracleResponse sender _ _ _ _ statusCode :: rest =>
      submitCallback sender statusCode (outcome k) ++ settle outcome (k + 1) rest
  | k, _ :: rest => settle outcome k rest

/-- A run of the handler followed by the completion of every submission it
issued. -/
def handleAndSettle (Oracles : List Oracle) (random : Nat → UnitDouble) (error : Option String)
    (event : Option Event) (outcome : Nat → Option String) : List Effect :=
  let run := handleOracleRequest Oracles random error event
  run.effects ++ settle outcome 0 run.effects

/-! ## Bootstrap (lines 28-45) -/

/-- The state of the server while the oracles register: the `Oracles` list, the
effects issued so far, the loop positions whose `registerOracle` transaction has been
sent, and the loop positions for which `getMyIndexes` has been called. -/
structure Server where
  Oracles : List Oracle
  effects : List Effect
  registerSent : List Nat
  indexesCalled : List Nat
deriving DecidableEq, Repr

/-- The server before the `getAccounts` callback runs. -/
def Server.initial : Server :=
  { Oracles := [], effects := [], registerSent := [], indexesCalled := [] }

/-- The loop of lines 31-44, entered at position `i`: each pass sends one
`registerOracle` transaction from `accounts[i]` with 1 ether and hands it the callback
of line 34. -/
def registerLoop (accounts : List Address) (i : Nat) (s : Server) : Server :=
  if i < ORACLE_COUNT then
    registerLoop accounts (i + 1)
      { s with
        effects := s.effects ++ [Effect.registerOracle accounts[i]? 1 9999999],
        registerSent := s.registerSent ++ [i] }
  else
    s
termination_by ORACLE_COUNT - i

/-- The `getAccounts` callback (lines 29-45); `none` stands for the `TypeError` of
reading `accounts[i]` when no account list was delivered. -/
def getAccountsCallback (accounts : Option (List Address)) : Option Server :=
  match accounts with
  | none => none
  | some accts => some (registerLoop accts ORACLE_OFFSET Server.initial)

/-- What web3 delivers while the oracles register: the completion of the
`registerOracle` transaction of loop position `i`, or the completion of the
`getMyIndexes` call of loop position `i` with its `result`. -/
inductive Callback where
  | registerDone (i : Nat) (error : Option String)
  | indexesDone (i : Nat) (error : Option String) (result : JSValue)
deriving DecidableEq, Repr

/-- The `send` callback of line 34 for loop position `i`: it calls `getMyIndexes`
from `accounts[i]`. -/
def registerCallback (accounts : List Address) (i : Nat) (_error : Option String)
    (s : Server) : Server :=
  { s with
    effects := s.effects ++ [Effect.getMyIndexes accounts[i]?],
    indexesCalled := s.indexesCalled ++ [i] }

/-- The `call` callback of lines 35-42 for loop position `i`: it builds the oracle
entry from `accounts[i]` and `result`, pushes it and logs it. -/
def indexesCallback (accounts : List Address) (i : Nat) (_error : Option String)
    (result : JSValue) (s : Server) : Server :=
  let oracle : Oracle := { address := accounts[i]?, index := result }
  { s with
    Oracles := s.Oracles ++ [oracle],
    effects := s.effects ++ [Effect.logRegistered oracle.address] }

/-- One callback delivered by web3.  The callback of a request exists once the
request has been issued; the code keeps no record of a completion, so nothing in it
prevents the callback of one request from running again. -/
def deliver (accounts : List Address) (s : Server) : Callback → Server
  | .registerDone i error =>
    if i ∈ s.registerSent then registerCallback accounts i error s else s
  | .indexesDone i error result =>
    if i ∈ s.indexesCalled then indexesCallback accounts i error result s else s

/-- Bootstrap on the account pool `accounts`, followed by the callbacks of
`schedule` in the order web3 delivers them. -/
def bootstrap (accounts : List Address) (schedule : List Callback) : Server :=
  schedule.foldl (deliver accounts) (registerLoop accounts ORACLE_OFFSET Server.initial)

/-- The `registerOracle` calls among a list of effects. -/
def registerCalls (effects : List Effect) : List Effect :=
  effects.filter fun e =>
    match e with
    | .registerOracle .. => true
    | _ => false

/-- The `getMyIndexes` calls among a list of effects. -/
def indexCalls (effects : List Effect) : List Effect :=
  effects.filter fun e =>
    match e with
    | .getMyIndexes .. => true
    | _ => false

/-- The same callback with the error of a `registerOracle` completion removed. -/
def Callback.withoutRegisterError : Callback → Callback
  | .registerDone i _ => .registerDone i none
  | c => c

/-- The loop position of a `getMyIndexes` completion. -/
def Callback.lookupPosition : Callback → Option Nat
  | .indexesDone i _ _ => some i
  | .registerDone _ _ => none


/-! ## The dapp contract wrapper (`src/dapp/contract.js`) -/

/-- The fields of a `Contract` object written by the constructor and by `initialize`.
In `owner`, `none` stands for `null` or `undefined`; in the two lists an entry `none`
is an `undefined` pushed by an out-of-bounds read of `accts`. -/
structure Contract where
  owner : Option Address
  airlines : List (Option Address)
  passengers : List (Option Address)
deriving DecidableEq, Repr

/-- The object at the end of the constructor (lines 13-16).  Line 13 only sends the
`getAccounts` request, which the HTTP provider answers after the constructor has
returned; lines 14-16 then set the three fields. -/
def Contract.constructed : Contract :=
  { owner := none, airlines := [], passengers := [] }

/-- What the `getAccounts` callback of `initialize` does to the outside world: its
console lines and the invocation of `callback`. -/
inductive DappEffect where
  | logOwner (owner : Option Address)
  | logAirlines (airlines : List (Option Address))
  | logPassengers (passengers : List (Option Address))
  | logException
  | callback
deriving DecidableEq, Repr

/-- The loop of lines 30-32, and again of lines 35-37:
`while (list.length < 5) { list.push(accts[counter++]); }`.  It returns the list and
the counter it leaves. -/
def fillLoop (accts : List Address) (list : List (Option Address)) (counter : Nat) :
    List (Option Address) × Nat :=
  if list.length < 5 then
    fillLoop accts (list ++ [accts[counter]?]) (counter + 1)
  else
    (list, counter)
termination_by 5 - list.length

/-- The outcome of the `getAccounts` callback: the object it leaves and its effects in
order. -/
structure InitRun where
  contract : Contract
  effects : List DappEffect
deriving DecidableEq, Repr

/-- The `getAccounts` callback of lines 22-44, run on the object `self`.  With no
account list the read `accts[0]` raises a `TypeError`, which line 41 catches and line
42 logs; `callbackThrows` tells whether the call `callback()` of line 40 raises, which
is caught and logged the same way. -/
def initializeCallback (self : Contract) (accts : Option (List Address))
    (callbackThrows : Bool) : InitRun :=
  match accts with
  | none => { contract := self, effects := [DappEffect.logException] }
  | some accts =>
    let owner := accts[0]?
    let filledAirlines := fillLoop accts self.airlines 1
    let filledPassengers := fillLoop accts self.passengers filledAirlines.2
    { contract :=
        { owner := owner, airlines := filledAirlines.1, passengers := filledPassengers.1 },
      effects :=
        [DappEffect.logOwner owner, DappEffect.logAirlines filledAirlines.1,
         DappEffect.logPassengers filledPassengers.1, DappEffect.callback]
        ++ (if callbackThrows then [DappEffect.logException] else []) }

/-- `initialize(callback)` as the constructor calls it (line 13): the `getAccounts`
callback runs on the constructed object once the accounts `accts` arrive. -/
def initializeContract (accts : List Address) (callbackThrows : Bool) : InitRun :=
  initializeCallback Contract.constructed (some accts) callbackThrows

/-! ## Scenario data -/

def oracleA : Oracle := { address := some "A", index := decodedUintArray [1, 4] }
def oracleB : Oracle := { address := some "B", index := decodedUintArray [4] }
def oracleC : Oracle := { address := some "C", index := decodedUintArray [9] }
def oracleD : Oracle := { address := some "D", index := decodedUintArray [1, 4, 7] }
def oracleE : Oracle := { address := some "E", index := decodedUintArray [4] }
def request4 : ReturnValues := { index := 4, airline := "airline", flight := "ND1309", timestamp := 1700000000 }

/-- The double 0. -/
def drawZero : UnitDouble :=
  { mantissa := 0, exponent := 0, mantissa_lt := by norm_num, exponent_le := by norm_num,
    below_one := by norm_num }

/-- The double 1/4. -/
def drawQuarter : UnitDouble :=
  { mantissa := 1, exponent := 2, mantissa_lt := by norm_num, exponent_le := by norm_num,
    below_one := by norm_num }

/-- The double 3/8. -/
def drawThreeEighths : UnitDouble :=
  { mantissa := 3, exponent := 3, mantissa_lt := by norm_num, exponent_le := by norm_num,
    below_one := by norm_num }

/-- The double 1/2. -/
def drawHalf : UnitDouble :=
  { mantissa := 1, exponent := 1, mantissa_lt := by norm_num, exponent_le := by norm_num,
    below_one := by norm_num }

/-- The double 3/4. -/
def drawThreeQuarters : UnitDouble :=
  { mantissa := 3, exponent := 2, mantissa_lt := by norm_num, exponent_le := by norm_num,
    below_one := by norm_num }

/-- The double 7/8. -/
def drawSevenEighths : UnitDouble :=
  { mantissa := 7, exponent := 3, mantissa_lt := by norm_num, exponent_le := by norm_num,
    below_one := by norm_num }

/-- The double 6004799503160661 / 2 ^ 53, printed 0.6666666666666666: six times this
number lies halfway between two doubles and is rounded up to 4. -/
def drawTwoThirds : UnitDouble :=
  { mantissa := 6004799503160661, exponent := 53, mantissa_lt := by norm_num,
    exponent_le := by norm_num, below_one := by norm_num }

/-- A status-code source whose successive draws give the codes 10, 20, 30, 30, ... -/
def risingDraws (k : Nat) : UnitDouble :=
  if k = 0 then drawQuarter else if k = 1 then drawThreeEighths else drawHalf


/-- The loop positions, 20 to 39. -/
def loopPositions : List Nat :=
  List.range' ORACLE_OFFSET (ORACLE_COUNT - ORACLE_OFFSET)

/-- The invariant of the bootstrap. -/
def Registering (accounts : List Address) (s : Server) : Prop :=
  s.registerSent = loopPositions
    ∧ (∀ j ∈ s.indexesCalled, j ∈ loopPositions)
    ∧ registerCalls s.effects
        = loopPositions.map (fun j => Effect.registerOracle accounts[j]? 1 9999999)
    ∧ ∀ e ∈ s.effects, ∃ j ∈ loopPositions,
        e = Effect.registerOracle accounts[j]? 1 9999999
        ∨ e = Effect.getMyIndexes accounts[j]?
        ∨ e = Effect.logRegistered accounts[j]?


/-- A pool of 50 accounts, named by their position. -/
def accountPool : List Address :=
  (List.range 50).map toString

/-- A pool of 50 accounts in which positions 20 and 21 hold the same address. -/
def repeatingPool : List Address :=
  (List.range 50).map fun i => if i = 21 then "20" else toString i

/-! ## Auxiliary definitions -/

/-- The number a list of decimal digits denotes, most significant digit first. -/
def digitsValue (cs : List Char) : Nat :=
  cs.foldl (fun acc c => 10 * acc + (c.toNat - 48)) 0

/-! ## Lemmas -/

theorem toDigits_ne_nil (n : Nat) : Nat.toDigits 10 n ≠ [] := by
  intro h
  have hl := congrArg List.length h
  unfold Nat.toDigits Nat.toDigitsCore at hl
  simp only [] at hl
  split at hl
  · simp at hl
  · rw [Nat.toDigitsCore_lens_eq] at hl
    simp at hl

theorem toString_ne_empty (n : Nat) : toString n ≠ "" := by
  intro h
  have : (Nat.toDigits 10 n).asString = "" := h
  apply toDigits_ne_nil n
  have h2 := congrArg String.data this
  simpa using h2

theorem matchTest_empty (i : Nat) (a : Option Address) :
    matchTest i ⟨a, .arr []⟩ = false := by
  simp [matchTest, looseEq, decodedUint, arrayToString]
  exact fun h => toString_ne_empty i h.symm

theorem oraclesForEach_eq (Oracles : List Oracle) (ev : ReturnValues) (sc : Option Nat)
    (issued : List Effect) :
    oraclesForEach Oracles ev sc issued
      = issued ++ (Oracles.filter (matchTest ev.index)).map (responseOf ev sc) := by
  induction Oracles generalizing issued with
  | nil => simp [oraclesForEach]
  | cons o os ih =>
    simp only [oraclesForEach, List.foldl_cons] at ih ⊢
    rw [ih]
    by_cases h : matchTest ev.index o = true
    · have h2 : looseEq o.index (decodedUint ev.index) = true := h
      simp [forEachBody, h2, List.filter_cons, h, responseOf]
    · have h2 : ¬ looseEq o.index (decodedUint ev.index) = true := h
      simp [forEachBody, h2, List.filter_cons, h]

theorem submissions_append (xs ys : List Effect) :
    submissions (xs ++ ys) = submissions xs ++ submissions ys := by
  simp [submissions]

theorem submissions_responses (ev : ReturnValues) (sc : Option Nat) (os : List Oracle) :
    submissions (os.map (responseOf ev sc)) = os.map (responseOf ev sc) := by
  induction os with
  | nil => rfl
  | cons o os ih =>
    simp only [List.map_cons]
    simp only [submissions] at ih ⊢
    rw [List.filter_cons]
    simp [responseOf, ih]

/-- The submissions of a handler run on a decodable event. -/
theorem submissions_handle (Oracles : List Oracle) (random : Nat → UnitDouble) (error : Option String)
    (ev : ReturnValues) :
    submissions (handleOracleRequest Oracles random error (some ⟨some ev⟩)).effects
      = (Oracles.filter (matchTest ev.index)).map
          (responseOf ev (randomStatusCode (random 0))) := by
  simp only [handleOracleRequest, oraclesForEach_eq, submissions_append, submissions_responses]
  cases error <;> simp [submissions]

theorem submissions_handle_threw (Oracles : List Oracle) (random : Nat → UnitDouble)
    (error : Option String) (event : Option Event)
    (h : (handleOracleRequest Oracles random error event).threw = true) :
    submissions (handleOracleRequest Oracles random error event).effects = [] := by
  rcases event with _ | ⟨_ | ev⟩
  · cases error <;> simp [handleOracleRequest, submissions]
  · cases error <;> simp [handleOracleRequest, submissions]
  · simp [handleOracleRequest] at h


theorem submissions_settle (outcome : Nat → Option String) (k : Nat) (xs : List Effect) :
    submissions (settle outcome k xs) = [] := by
  induction xs generalizing k with
  | nil => rfl
  | cons x xs ih =>
    cases x <;> simp only [settle, submitCallback, submissions_append, ih]
    simp [submissions]

theorem roundToDouble_small (n : Nat) (h : n < 2 ^ 53) : roundToDouble n = n := by
  have hs : n.log2 + 1 - 53 = 0 := by
    by_cases h0 : n = 0
    · subst h0; simp [Nat.log2]
    · have : n.log2 < 53 := (Nat.log2_lt h0).mpr h
      omega
  unfold roundToDouble
  rw [hs]
  simp [Nat.mod_one]

theorem roundToDouble_le (n : Nat) (h : n < 6 * 2 ^ 53) : roundToDouble n ≤ n + 4 := by
  have hs : n.log2 + 1 - 53 ≤ 3 := by
    by_cases h0 : n = 0
    · subst h0; simp [Nat.log2]
    · have : n.log2 < 56 := (Nat.log2_lt h0).mpr (by omega)
      omega
  unfold roundToDouble
  generalize n.log2 + 1 - 53 = s at hs
  simp only []
  have hcases : s = 0 ∨ s = 1 ∨ s = 2 ∨ s = 3 := by omega
  rcases hcases with rfl | rfl | rfl | rfl <;> norm_num <;> split <;> omega

theorem statusCodes_length : STATUS_CODES.length = 6 := rfl

theorem randomIndex_bounds (r : UnitDouble) :
    0 ≤ randomIndex r ∧ randomIndex r < 6 := by
  unfold randomIndex
  rw [statusCodes_length]
  refine ⟨Int.natCast_nonneg _, ?_⟩
  have hm := r.mantissa_lt
  have h1 := r.below_one
  have hr := roundToDouble_le (r.mantissa * 6) (by omega)
  have hp : 0 < 2 ^ r.exponent := Nat.two_pow_pos _
  have : roundToDouble (r.mantissa * 6) / 2 ^ r.exponent < 6 := by
    rw [Nat.div_lt_iff_lt_mul hp]
    omega
  exact_mod_cast this

theorem arrayGet_statusCodes (k : Int) (h0 : 0 ≤ k) (h1 : k < 6) :
    ∃ c, c ∈ ([0, 10, 20, 30, 40, 50] : List Nat) ∧ arrayGet STATUS_CODES k = some c := by
  have hk : k = 0 ∨ k = 1 ∨ k = 2 ∨ k = 3 ∨ k = 4 ∨ k = 5 := by omega
  rcases hk with h | h | h | h | h | h <;> subst h <;> decide

theorem randomStatusCode_mem (r : UnitDouble) :
    ∃ c, c ∈ ([0, 10, 20, 30, 40, 50] : List Nat) ∧ randomStatusCode r = some c := by
  obtain ⟨ha, hb⟩ := randomIndex_bounds r
  exact arrayGet_statusCodes _ ha hb

/-- The status code of a draw whose product with 6 needs no rounding. -/
theorem randomStatusCode_exact (r : UnitDouble) (h : r.mantissa * 6 < 2 ^ 53) :
    randomStatusCode r = arrayGet STATUS_CODES ((r.mantissa * 6 / 2 ^ r.exponent : Nat) : Int) := by
  unfold randomStatusCode randomIndex
  rw [statusCodes_length, roundToDouble_small _ h]

theorem randomStatusCode_zero : randomStatusCode drawZero = some 0 := by
  rw [randomStatusCode_exact _ (by norm_num [drawZero])]
  decide

theorem randomStatusCode_quarter : randomStatusCode drawQuarter = some 10 := by
  rw [randomStatusCode_exact _ (by norm_num [drawQuarter])]
  decide

theorem randomStatusCode_threeEighths : randomStatusCode drawThreeEighths = some 20 := by
  rw [randomStatusCode_exact _ (by norm_num [drawThreeEighths])]
  decide

theorem randomStatusCode_half : randomStatusCode drawHalf = some 30 := by
  rw [randomStatusCode_exact _ (by norm_num [drawHalf])]
  decide

theorem randomStatusCode_threeQuarters : randomStatusCode drawThreeQuarters = some 40 := by
  rw [randomStatusCode_exact _ (by norm_num [drawThreeQuarters])]
  decide

theorem randomStatusCode_sevenEighths : randomStatusCode drawSevenEighths = some 50 := by
  rw [randomStatusCode_exact _ (by norm_num [drawSevenEighths])]
  decide

theorem risingDraws_zero : randomStatusCode (risingDraws 0) = some 10 :=
  randomStatusCode_quarter

theorem digitChar_ne_comma (d : Nat) (h : d < 10) : Nat.digitChar d ≠ ',' := by
  interval_cases d <;> decide

theorem toDigitsCore_no_comma (fuel : Nat) :
    ∀ (n : Nat) (ds : List Char), (∀ c ∈ ds, c ≠ ',') →
      ∀ c ∈ Nat.toDigitsCore 10 fuel n ds, c ≠ ',' := by
  induction fuel with
  | zero => intro n ds h; simpa [Nat.toDigitsCore] using h
  | succ fuel ih =>
    intro n ds h
    have hd : ∀ c ∈ Nat.digitChar (n % 10) :: ds, c ≠ ',' := by
      intro c hc
      rcases List.mem_cons.mp hc with rfl | hc
      · exact digitChar_ne_comma _ (Nat.mod_lt _ (by decide))
      · exact h c hc
    unfold Nat.toDigitsCore
    simp only []
    split
    · exact hd
    · exact ih _ _ hd

theorem toString_no_comma (n : Nat) : ',' ∉ (toString n).data := by
  intro h
  have h2 : ',' ∈ Nat.toDigits 10 n := h
  exact toDigitsCore_no_comma _ _ [] (by simp) _ h2 rfl

theorem intercalate_go_mem (s : String) (as : List String) :
    ∀ (acc : String) (c : Char), c ∈ acc.data → c ∈ (String.intercalate.go acc s as).data := by
  induction as with
  | nil => intro acc c h; simpa [String.intercalate.go] using h
  | cons a as ih =>
    intro acc c h
    rw [String.intercalate.go]
    apply ih
    simp [String.data_append, h]

theorem intercalate_comma_mem (a b : String) (rest : List String) :
    ',' ∈ (",".intercalate (a :: b :: rest)).data := by
  rw [String.intercalate, String.intercalate.go]
  apply intercalate_go_mem
  simp [String.data_append]

/-- The join of an array equals the decimal string of a number only for an array
of one element, that string itself. -/
theorem join_eq_toString (xs : List String) (n : Nat) :
    ",".intercalate xs = toString n ↔ xs = [toString n] := by
  constructor
  · intro h
    match xs, h with
    | [], h =>
      exfalso
      have hd := congrArg String.data h
      have : Nat.toDigits 10 n = [] := by simpa [String.intercalate] using hd.symm
      exact toDigits_ne_nil n this
    | [a], h => simpa [String.intercalate, String.intercalate.go] using h
    | a :: b :: rest, h =>
      exfalso
      have := intercalate_comma_mem a b rest
      rw [h] at this
      exact toString_no_comma n this
  · rintro rfl
    rfl

theorem digitChar_value (d : Nat) (h : d < 10) : (Nat.digitChar d).toNat - 48 = d := by
  interval_cases d <;> decide

theorem toDigitsCore_append (fuel : Nat) :
    ∀ (n : Nat) (ds : List Char),
      Nat.toDigitsCore 10 fuel n ds = Nat.toDigitsCore 10 fuel n [] ++ ds := by
  induction fuel with
  | zero => intro n ds; simp [Nat.toDigitsCore]
  | succ fuel ih =>
    intro n ds
    unfold Nat.toDigitsCore
    simp only []
    split
    · simp
    · rw [ih _ (_ :: ds), ih _ [_]]
      simp

theorem digitsValue_toDigitsCore (fuel : Nat) :
    ∀ n : Nat, n < fuel → digitsValue (Nat.toDigitsCore 10 fuel n []) = n := by
  induction fuel with
  | zero => intro n h; omega
  | succ fuel ih =>
    intro n h
    unfold Nat.toDigitsCore
    simp only []
    have hd := digitChar_value (n % 10) (Nat.mod_lt _ (by decide))
    split
    · rename_i h0
      simp only [digitsValue, List.foldl_cons, List.foldl_nil, hd]
      omega
    · rename_i h0
      rw [toDigitsCore_append]
      have hlt : n / 10 < fuel := by omega
      have := ih (n / 10) hlt
      simp only [digitsValue, List.foldl_append, List.foldl_cons, List.foldl_nil] at this ⊢
      rw [this, hd]
      omega

theorem toString_injective (a b : Nat) (h : toString a = toString b) : a = b := by
  have hd : Nat.toDigits 10 a = Nat.toDigits 10 b := congrArg String.data h
  have ha := digitsValue_toDigitsCore (a + 1) a (by omega)
  have hb := digitsValue_toDigitsCore (b + 1) b (by omega)
  unfold Nat.toDigits at hd
  rw [hd] at ha
  omega

/-- The match test of line 66 on an entry that stores a decoded index array: it passes
only when the array consists of the request index alone. -/
theorem matchTest_decoded (address : Option Address) (ns : List Nat) (i : Nat) :
    matchTest i { address := address, index := decodedUintArray ns } = true ↔ ns = [i] := by
  simp only [matchTest, looseEq, decodedUint, decodedUintArray, arrayToString, beq_iff_eq]
  rw [join_eq_toString]
  constructor
  · intro h
    match ns, h with
    | [], h => simp at h
    | [n], h =>
      simp only [List.map_cons, List.map_nil, List.cons.injEq, and_true] at h
      rw [toString_injective n i h]
    | _ :: _ :: _, h => simp at h
  · rintro rfl
    rfl

/-- C1: in the scenario of the claim (A holds {1,4}, B holds {4}, C holds {9}, request
index 4) the handler submits one response, from B only, and an oracle holding the
three indexes {1,4,7} gets no submission for request index 4; in general an entry that
stores a decoded index array passes the match test only when the array consists of the
request index alone. -/
theorem scenario_only_B_responds (random : Nat → UnitDouble) (error : Option String) :
    submissions (handleOracleRequest [oracleA, oracleB, oracleC] random error
        (some ⟨some request4⟩)).effects
      = [Effect.submitOracleResponse (some "B") 4 "airline" "ND1309" 1700000000
          (randomStatusCode (random 0))]
    ∧ submissions (handleOracleRequest [oracleD] random error
        (some ⟨some request4⟩)).effects = []
    ∧ ∀ (address : Option Address) (ns : List Nat) (i : Nat),
        matchTest i { address := address, index := decodedUintArray ns } = true ↔ ns = [i] := by
  have hABC : [oracleA, oracleB, oracleC].filter (matchTest request4.index) = [oracleB] := by
    decide
  have hD : [oracleD].filter (matchTest request4.index) = [] := by decide
  rw [submissions_handle, submissions_handle, hABC, hD]
  exact ⟨rfl, rfl, matchTest_decoded⟩

/-- C2: on a decodable event the handler returns normally and its submissions are,
in registry order, one call per entry passing the match test, each from the address of
the entry and carrying the index, airline, flight and timestamp of the record. -/
theorem handler_submits_one_per_match (Oracles : List Oracle) (random : Nat → UnitDouble)
    (error : Option String) (ev : ReturnValues) :
    submissions (handleOracleRequest Oracles random error (some ⟨some ev⟩)).effects
      = (Oracles.filter (matchTest ev.index)).map (fun o =>
          Effect.submitOracleResponse o.address ev.index ev.airline ev.flight ev.timestamp
            (randomStatusCode (random 0)))
    ∧ (submissions (handleOracleRequest Oracles random error (some ⟨some ev⟩)).effects).length
      = (Oracles.filter (matchTest ev.index)).length
    ∧ (handleOracleRequest Oracles random error (some ⟨some ev⟩)).threw = false := by
  refine ⟨?_, ?_, rfl⟩
  · rw [submissions_handle]; rfl
  · rw [submissions_handle, List.length_map]

/-- C3, counterexample: with two matched oracles and a source whose successive draws
give 10, 20, ..., the handler draws once and both submissions carry 10. -/
theorem one_draw_for_two_matches :
    ([oracleB, oracleE].filter (matchTest request4.index)).length = 2
    ∧ (handleOracleRequest [oracleB, oracleE] risingDraws none (some ⟨some request4⟩)).draws = 1
    ∧ submissions (handleOracleRequest [oracleB, oracleE] risingDraws none
        (some ⟨some request4⟩)).effects
      = [Effect.submitOracleResponse (some "B") 4 "airline" "ND1309" 1700000000 (some 10),
         Effect.submitOracleResponse (some "E") 4 "airline" "ND1309" 1700000000 (some 10)] := by
  have hBE : [oracleB, oracleE].filter (matchTest request4.index) = [oracleB, oracleE] := by
    decide
  refine ⟨by rw [hBE]; rfl, rfl, ?_⟩
  rw [submissions_handle, hBE, risingDraws_zero]
  rfl

/-- C3, amended: every run of the handler calls the status-code source exactly once,
and every submission of the run carries the code of that one draw. -/
theorem handler_draws_once (Oracles : List Oracle) (random : Nat → UnitDouble)
    (error : Option String) (event : Option Event) :
    (handleOracleRequest Oracles random error event).draws = 1
    ∧ ∀ e ∈ submissions (handleOracleRequest Oracles random error event).effects,
        ∃ sender i airline flight timestamp,
          e = Effect.submitOracleResponse sender i airline flight timestamp
            (randomStatusCode (random 0)) := by
  constructor
  · rcases event with _ | ⟨_ | ev⟩ <;> rfl
  · intro e he
    rcases event with _ | ⟨_ | ev⟩
    · rw [submissions_handle_threw Oracles random error none rfl] at he; simp at he
    · rw [submissions_handle_threw Oracles random error (some ⟨none⟩) rfl] at he; simp at he
    · rw [submissions_handle, List.mem_map] at he
      obtain ⟨o, _, rfl⟩ := he
      exact ⟨_, _, _, _, _, rfl⟩


theorem matchTest_assigned (i : Nat) (o : Oracle) (h : matchTest i o = true) :
    o.index ≠ JSValue.undefined ∧ o.index ≠ JSValue.null ∧ o.index ≠ JSValue.arr [] := by
  rcases o with ⟨a, idx⟩
  refine ⟨?_, ?_, ?_⟩ <;> intro hidx <;> simp only at hidx <;> subst hidx
  · exact Bool.noConfusion h
  · exact Bool.noConfusion h
  · rw [matchTest_empty] at h; exact Bool.noConfusion h

theorem roundToDouble_tie : roundToDouble 36028797018963966 = 36028797018963968 := by
  have hlog : Nat.log2 36028797018963966 = 54 := by
    have h0 : (36028797018963966 : Nat) ≠ 0 := by norm_num
    have h1 : 54 ≤ Nat.log2 36028797018963966 := (Nat.le_log2 h0).mpr (by norm_num)
    have h2 : Nat.log2 36028797018963966 < 55 := (Nat.log2_lt h0).mpr (by norm_num)
    omega
  unfold roundToDouble
  rw [hlog]
  norm_num

theorem randomStatusCode_twoThirds : randomStatusCode drawTwoThirds = some 40 := by
  unfold randomStatusCode randomIndex
  rw [statusCodes_length]
  have h : drawTwoThirds.mantissa * 6 = 36028797018963966 := by norm_num [drawTwoThirds]
  rw [h, roundToDouble_tie]
  have h2 : (36028797018963968 : Nat) / 2 ^ drawTwoThirds.exponent = 4 := by
    norm_num [drawTwoThirds]
  rw [h2]
  decide

/-- C4: for every draw r of the interval 0 ≤ r < 1 the index floor(r * 6), computed in
double arithmetic as the code does, lies within the bounds of STATUS_CODES, the code
read there is one of 0, 10, 20, 30, 40, 50, every submission of a handler run on that
draw carries such a code, and each of the six codes is produced by some draw of the
interval. -/
theorem statusCode_in_bounds (r : UnitDouble) :
    (0 ≤ r.value ∧ r.value < 1)
    ∧ (0 ≤ randomIndex r ∧ randomIndex r < (STATUS_CODES.length : Int))
    ∧ (∃ c, c ∈ ([0, 10, 20, 30, 40, 50] : List Nat) ∧ randomStatusCode r = some c)
    ∧ (∀ (Oracles : List Oracle) (random : Nat → UnitDouble) (error : Option String)
        (event : Option Event), random 0 = r →
        ∀ e ∈ submissions (handleOracleRequest Oracles random error event).effects,
          ∃ sender i airline flight timestamp c,
            c ∈ ([0, 10, 20, 30, 40, 50] : List Nat)
            ∧ e = Effect.submitOracleResponse sender i airline flight timestamp (some c))
    ∧ (∀ c ∈ ([0, 10, 20, 30, 40, 50] : List Nat),
        ∃ r' : UnitDouble, randomStatusCode r' = some c) := by
  refine ⟨?_, randomIndex_bounds r, randomStatusCode_mem r, ?_, ?_⟩
  · have hp : (0 : ℚ) < 2 ^ r.exponent := by positivity
    have hlt : (r.mantissa : ℚ) < 2 ^ r.exponent := by exact_mod_cast r.below_one
    unfold UnitDouble.value
    constructor
    · positivity
    · rw [div_lt_one hp]; exact hlt
  · intro Oracles random error event hr e he
    obtain ⟨c, hc, hrc⟩ := randomStatusCode_mem r
    rcases event with _ | ⟨_ | ev⟩
    · rw [submissions_handle_threw Oracles random error none rfl] at he; simp at he
    · rw [submissions_handle_threw Oracles random error (some ⟨none⟩) rfl] at he; simp at he
    · rw [submissions_handle, List.mem_map] at he
      obtain ⟨o, _, rfl⟩ := he
      rw [hr, hrc]
      exact ⟨_, _, _, _, _, c, hc, rfl⟩
  · intro c hc
    simp only [List.mem_cons, List.mem_singleton, List.not_mem_nil, or_false] at hc
    rcases hc with h | h | h | h | h | h <;> subst h
    · exact ⟨drawZero, randomStatusCode_zero⟩
    · exact ⟨drawQuarter, randomStatusCode_quarter⟩
    · exact ⟨drawThreeEighths, randomStatusCode_threeEighths⟩
    · exact ⟨drawHalf, randomStatusCode_half⟩
    · exact ⟨drawThreeQuarters, randomStatusCode_threeQuarters⟩
    · exact ⟨drawSevenEighths, randomStatusCode_sevenEighths⟩

/-- C4, witness: the draw 0.6666666666666666, whose product with 6 is rounded up to 4
before it is floored; the status code is 40. -/
theorem statusCode_in_bounds_witness :
    randomStatusCode drawTwoThirds = some 40
    ∧ (0 ≤ randomIndex drawTwoThirds ∧ randomIndex drawTwoThirds < (STATUS_CODES.length : Int))
    ∧ (∃ c, c ∈ ([0, 10, 20, 30, 40, 50] : List Nat)
        ∧ randomStatusCode drawTwoThirds = some c) :=
  ⟨randomStatusCode_twoThirds,
    (statusCode_in_bounds drawTwoThirds).2.1,
    (statusCode_in_bounds drawTwoThirds).2.2.1⟩

/-- C6: a run that is handed an error and no event object logs the error and then
ends in a TypeError, and so does, without logging, a run whose event has no
returnValues; neither run submits a response. -/
theorem handler_throws_without_event (Oracles : List Oracle) (random : Nat → UnitDouble)
    (err : String) :
    handleOracleRequest Oracles random (some err) none
      = { effects := [Effect.logError err], draws := 1, threw := true }
    ∧ handleOracleRequest Oracles random none (some ⟨none⟩)
      = { effects := [], draws := 1, threw := true } :=
  ⟨rfl, rfl⟩

/-- C7: every submission of a handler run is made for a registry entry whose stored
index value is a non-empty array, and an entry whose index value is undefined, null or
the empty array passes the match test for no request index. -/
theorem no_response_for_empty_index (Oracles : List Oracle) (random : Nat → UnitDouble)
    (error : Option String) (event : Option Event) :
    (∀ e ∈ submissions (handleOracleRequest Oracles random error event).effects,
      ∃ o ∈ Oracles, ∃ ev statusCode,
        e = responseOf ev statusCode o ∧ o.index ≠ JSValue.undefined
          ∧ o.index ≠ JSValue.null ∧ o.index ≠ JSValue.arr [])
    ∧ (∀ (o : Oracle) (ev : ReturnValues) (statusCode : Option Nat) (issued : List Effect),
        o.index = JSValue.undefined ∨ o.index = JSValue.null ∨ o.index = JSValue.arr [] →
        forEachBody ev statusCode issued o = issued) := by
  constructor
  · intro e he
    rcases event with _ | ⟨_ | ev⟩
    · rw [submissions_handle_threw Oracles random error none rfl] at he; simp at he
    · rw [submissions_handle_threw Oracles random error (some ⟨none⟩) rfl] at he; simp at he
    · rw [submissions_handle, List.mem_map] at he
      obtain ⟨o, ho, rfl⟩ := he
      rw [List.mem_filter] at ho
      obtain ⟨hmem, hmatch⟩ := ho
      exact ⟨o, hmem, ev, _, rfl, matchTest_assigned _ _ hmatch⟩
  · intro o ev statusCode issued h
    have hm : matchTest ev.index o = false := by
      rcases o with ⟨a, idx⟩
      rcases h with h | h | h <;> simp only at h <;> subst h
      · rfl
      · rfl
      · exact matchTest_empty _ _
    have hm2 : looseEq o.index (decodedUint ev.index) = false := hm
    simp [forEachBody, hm2]

/-- C8: the submissions that a handler run and the completion of its submissions
produce are the same whatever errors the completions report: one call per matched
entry, in registry order, and no call is issued by a completion. -/
theorem submissions_ignore_outcomes (Oracles : List Oracle) (random : Nat → UnitDouble)
    (error : Option String) (event : Option Event) (outcome₁ outcome₂ : Nat → Option String) :
    submissions (handleAndSettle Oracles random error event outcome₁)
      = submissions (handleAndSettle Oracles random error event outcome₂)
    ∧ submissions (handleAndSettle Oracles random error event outcome₁)
      = submissions (handleOracleRequest Oracles random error event).effects
    ∧ ∀ ev, event = some ⟨some ev⟩ →
        submissions (handleAndSettle Oracles random error event outcome₁)
          = (Oracles.filter (matchTest ev.index)).map
              (responseOf ev (randomStatusCode (random 0))) := by
  have h : ∀ outcome, submissions (handleAndSettle Oracles random error event outcome)
      = submissions (handleOracleRequest Oracles random error event).effects := by
    intro outcome
    simp only [handleAndSettle, submissions_append, submissions_settle, List.append_nil]
  refine ⟨by rw [h, h], h _, ?_⟩
  intro ev hev
  rw [h, hev, submissions_handle]

theorem registerLoop_eq (accounts : List Address) (n : Nat) :
    ∀ (i : Nat) (s : Server), i + n = ORACLE_COUNT →
      registerLoop accounts i s =
        { s with
          effects := s.effects ++ (List.range' i n).map
            (fun j => Effect.registerOracle accounts[j]? 1 9999999),
          registerSent := s.registerSent ++ List.range' i n } := by
  induction n with
  | zero =>
    intro i s h
    rw [registerLoop]
    have : ¬ i < ORACLE_COUNT := by omega
    simp [this]
  | succ n ih =>
    intro i s h
    rw [registerLoop]
    have : i < ORACLE_COUNT := by omega
    simp only [this, if_true]
    rw [ih (i + 1) _ (by omega)]
    simp [List.range'_succ]

theorem registerLoop_start (accounts : List Address) :
    registerLoop accounts ORACLE_OFFSET Server.initial =
      { Oracles := [],
        effects := loopPositions.map (fun j => Effect.registerOracle accounts[j]? 1 9999999),
        registerSent := loopPositions,
        indexesCalled := [] } := by
  rw [registerLoop_eq accounts (ORACLE_COUNT - ORACLE_OFFSET) ORACLE_OFFSET Server.initial
    (by decide)]
  simp [Server.initial, loopPositions]

theorem bootstrap_nil (accounts : List Address) :
    bootstrap accounts [] =
      { Oracles := [],
        effects := loopPositions.map (fun j => Effect.registerOracle accounts[j]? 1 9999999),
        registerSent := loopPositions,
        indexesCalled := [] } := by
  rw [bootstrap, List.foldl_nil, registerLoop_start]

theorem bootstrap_append (accounts : List Address) (schedule later : List Callback) :
    bootstrap accounts (schedule ++ later)
      = later.foldl (deliver accounts) (bootstrap accounts schedule) := by
  simp [bootstrap, List.foldl_append]

theorem bootstrap_snoc (accounts : List Address) (schedule : List Callback) (c : Callback) :
    bootstrap accounts (schedule ++ [c]) = deliver accounts (bootstrap accounts schedule) c := by
  rw [bootstrap_append]
  rfl

theorem registerCalls_append (xs ys : List Effect) :
    registerCalls (xs ++ ys) = registerCalls xs ++ registerCalls ys := by
  simp [registerCalls]

theorem registerCalls_loop (accounts : List Address) (ps : List Nat) :
    registerCalls (ps.map (fun j => Effect.registerOracle accounts[j]? 1 9999999))
      = ps.map (fun j => Effect.registerOracle accounts[j]? 1 9999999) := by
  induction ps with
  | nil => rfl
  | cons p ps ih =>
    simp only [List.map_cons]
    simp only [registerCalls] at ih ⊢
    rw [List.filter_cons]
    simp [ih]

theorem registering_start (accounts : List Address) :
    Registering accounts (registerLoop accounts ORACLE_OFFSET Server.initial) := by
  rw [registerLoop_start]
  refine ⟨rfl, by simp, registerCalls_loop accounts loopPositions, ?_⟩
  intro e he
  simp only [List.mem_map] at he
  obtain ⟨j, hj, rfl⟩ := he
  exact ⟨j, hj, Or.inl rfl⟩

theorem registering_deliver (accounts : List Address) (s : Server) (c : Callback)
    (h : Registering accounts s) : Registering accounts (deliver accounts s c) := by
  obtain ⟨hS, hI, hR, hE⟩ := h
  cases c with
  | registerDone i error =>
    by_cases hi : i ∈ s.registerSent
    · simp only [deliver, hi, if_true, registerCallback]
      have hiL : i ∈ loopPositions := hS ▸ hi
      refine ⟨hS, ?_, ?_, ?_⟩
      · intro j hj
        rcases List.mem_append.mp hj with hj | hj
        · exact hI j hj
        · rw [List.mem_singleton] at hj; exact hj ▸ hiL
      · rw [registerCalls_append, hR]; simp [registerCalls]
      · intro e he
        rcases List.mem_append.mp he with he | he
        · exact hE e he
        · rw [List.mem_singleton] at he
          exact ⟨i, hiL, Or.inr (Or.inl he)⟩
    · simp only [deliver, hi, if_false]
      exact ⟨hS, hI, hR, hE⟩
  | indexesDone i error result =>
    by_cases hi : i ∈ s.indexesCalled
    · simp only [deliver, hi, if_true, indexesCallback]
      have hiL : i ∈ loopPositions := hI i hi
      refine ⟨hS, hI, ?_, ?_⟩
      · rw [registerCalls_append, hR]; simp [registerCalls]
      · intro e he
        rcases List.mem_append.mp he with he | he
        · exact hE e he
        · rw [List.mem_singleton] at he
          exact ⟨i, hiL, Or.inr (Or.inr he)⟩
    · simp only [deliver, hi, if_false]
      exact ⟨hS, hI, hR, hE⟩

theorem registering_foldl (accounts : List Address) (schedule : List Callback) (s : Server)
    (h : Registering accounts s) :
    Registering accounts (schedule.foldl (deliver accounts) s) := by
  induction schedule generalizing s with
  | nil => exact h
  | cons c cs ih => exact ih _ (registering_deliver accounts s c h)

theorem registering_bootstrap (accounts : List Address) (schedule : List Callback) :
    Registering accounts (bootstrap accounts schedule) :=
  registering_foldl accounts schedule _ (registering_start accounts)

theorem mem_loopPositions (j : Nat) :
    j ∈ loopPositions ↔ ORACLE_OFFSET ≤ j ∧ j < ORACLE_COUNT := by
  simp only [loopPositions, List.mem_range', ORACLE_OFFSET, ORACLE_COUNT]
  constructor
  · rintro ⟨k, hk, rfl⟩; omega
  · intro h; exact ⟨j - 20, by omega, by omega⟩

theorem loopPositions_nodup : loopPositions.Nodup := by
  decide

/-- A lookup has been called for a position exactly when a registration of that loop
position has completed. -/
theorem mem_indexesCalled (accounts : List Address) (schedule : List Callback) (i : Nat) :
    i ∈ (bootstrap accounts schedule).indexesCalled
      ↔ i ∈ loopPositions ∧ ∃ error, Callback.registerDone i error ∈ schedule := by
  induction schedule using List.reverseRecOn with
  | nil => simp [bootstrap_nil]
  | append_singleton schedule c ih =>
    rw [bootstrap_snoc]
    have hS := (registering_bootstrap accounts schedule).1
    cases c with
    | registerDone k error =>
      by_cases hk : k ∈ (bootstrap accounts schedule).registerSent
      · simp only [deliver, hk, if_true, registerCallback, List.mem_append,
          List.mem_singleton, ih]
        constructor
        · rintro (⟨hl, e, he⟩ | rfl)
          · exact ⟨hl, e, Or.inl he⟩
          · exact ⟨hS ▸ hk, error, Or.inr rfl⟩
        · rintro ⟨hl, e, he | he⟩
          · exact Or.inl ⟨hl, e, he⟩
          · right
            injection he
      · simp only [deliver, hk, if_false, ih, List.mem_append, List.mem_singleton]
        constructor
        · rintro ⟨hl, e, he⟩
          exact ⟨hl, e, Or.inl he⟩
        · rintro ⟨hl, e, he | he⟩
          · exact ⟨hl, e, he⟩
          · exfalso
            apply hk
            rw [hS]
            injection he with h1 _
            exact h1 ▸ hl
    | indexesDone k error result =>
      have hsame : (deliver accounts (bootstrap accounts schedule)
          (Callback.indexesDone k error result)).indexesCalled
          = (bootstrap accounts schedule).indexesCalled := by
        by_cases hk : k ∈ (bootstrap accounts schedule).indexesCalled
        · simp [deliver, hk, indexesCallback]
        · simp [deliver, hk]
      rw [hsame, ih]
      simp

/-- C5, counterexample: the registration of the account at position 20 reports
an error; bootstrap still calls getMyIndexes for it, stores the returned array and
adds the entry, and a later request with index 4 is answered on its behalf. -/
theorem failed_registration_still_added :
    indexCalls (bootstrap accountPool
        [Callback.registerDone 20 (some "revert"),
         Callback.indexesDone 20 none (decodedUintArray [4])]).effects
      = [Effect.getMyIndexes (some "20")]
    ∧ (bootstrap accountPool
        [Callback.registerDone 20 (some "revert"),
         Callback.indexesDone 20 none (decodedUintArray [4])]).Oracles
      = [{ address := some "20", index := decodedUintArray [4] }]
    ∧ submissions (handleOracleRequest
        (bootstrap accountPool
          [Callback.registerDone 20 (some "revert"),
           Callback.indexesDone 20 none (decodedUintArray [4])]).Oracles
        (fun _ => drawZero) none (some ⟨some request4⟩)).effects
      = [Effect.submitOracleResponse (some "20") 4 "airline" "ND1309" 1700000000 (some 0)] := by
  have hO : (bootstrap accountPool
        [Callback.registerDone 20 (some "revert"),
         Callback.indexesDone 20 none (decodedUintArray [4])]).Oracles
      = [{ address := some "20", index := decodedUintArray [4] }] := by
    rw [bootstrap, registerLoop_start]
    decide
  refine ⟨?_, hO, ?_⟩
  · rw [bootstrap, registerLoop_start]
    decide
  · rw [hO, submissions_handle, randomStatusCode_zero]
    decide


theorem deliver_withoutRegisterError (accounts : List Address) (s : Server) (c : Callback) :
    deliver accounts s c.withoutRegisterError = deliver accounts s c := by
  cases c <;> rfl

theorem foldl_withoutRegisterError (accounts : List Address) (schedule : List Callback)
    (s : Server) :
    (schedule.map Callback.withoutRegisterError).foldl (deliver accounts) s
      = schedule.foldl (deliver accounts) s := by
  induction schedule generalizing s with
  | nil => rfl
  | cons c cs ih =>
    simp only [List.map_cons, List.foldl_cons, deliver_withoutRegisterError, ih]

theorem indexCalls_append (xs ys : List Effect) :
    indexCalls (xs ++ ys) = indexCalls xs ++ indexCalls ys := by
  simp [indexCalls]

theorem indexCalls_loop (accounts : List Address) (ps : List Nat) :
    indexCalls (ps.map (fun j => Effect.registerOracle accounts[j]? 1 9999999)) = [] := by
  induction ps with
  | nil => rfl
  | cons p ps ih =>
    simp only [List.map_cons]
    simp only [indexCalls] at ih ⊢
    rw [List.filter_cons]
    simp [ih]

theorem loop_reads (accounts : List Address) (h : ORACLE_COUNT ≤ accounts.length) :
    loopPositions.map (fun j => accounts[j]?)
      = ((accounts.drop ORACLE_OFFSET).take (ORACLE_COUNT - ORACLE_OFFSET)).map some := by
  apply List.ext_getElem?
  intro k
  simp only [loopPositions, ORACLE_OFFSET, ORACLE_COUNT] at h ⊢
  by_cases hk : k < 20
  · have h1 : 20 + k < accounts.length := by omega
    simp [List.getElem?_map, List.getElem?_take, List.getElem?_drop, List.getElem?_range', hk,
      List.getElem?_eq_getElem h1]
  · simp [List.getElem?_map, List.getElem?_take, List.getElem?_drop, List.getElem?_range', hk]
    omega

theorem oracles_registerDone (accounts : List Address) (schedule : List Callback) (i : Nat)
    (error : Option String) :
    (bootstrap accounts (schedule ++ [Callback.registerDone i error])).Oracles
      = (bootstrap accounts schedule).Oracles := by
  rw [bootstrap_snoc]
  by_cases hi : i ∈ (bootstrap accounts schedule).registerSent
  · simp [deliver, hi, registerCallback]
  · simp [deliver, hi]

theorem effects_registerDone (accounts : List Address) (schedule : List Callback) (i : Nat)
    (error : Option String) (hi : i ∈ loopPositions) :
    (bootstrap accounts (schedule ++ [Callback.registerDone i error])).effects
      = (bootstrap accounts schedule).effects ++ [Effect.getMyIndexes accounts[i]?] := by
  rw [bootstrap_snoc]
  have hS := (registering_bootstrap accounts schedule).1
  have hmem : i ∈ (bootstrap accounts schedule).registerSent := hS ▸ hi
  simp [deliver, hmem, registerCallback]

theorem oracles_indexesDone (accounts : List Address) (schedule : List Callback) (i : Nat)
    (error : Option String) (result : JSValue)
    (h : i ∈ loopPositions ∧ ∃ e, Callback.registerDone i e ∈ schedule) :
    (bootstrap accounts (schedule ++ [Callback.indexesDone i error result])).Oracles
      = (bootstrap accounts schedule).Oracles
        ++ [{ address := accounts[i]?, index := result }] := by
  rw [bootstrap_snoc]
  have hi := (mem_indexesCalled accounts schedule i).mpr h
  simp [deliver, hi, indexesCallback]

theorem oracles_indexesDone_uncalled (accounts : List Address) (schedule : List Callback)
    (i : Nat) (error : Option String) (result : JSValue)
    (h : ¬ (i ∈ loopPositions ∧ ∃ e, Callback.registerDone i e ∈ schedule)) :
    (bootstrap accounts (schedule ++ [Callback.indexesDone i error result])).Oracles
      = (bootstrap accounts schedule).Oracles := by
  rw [bootstrap_snoc]
  have hi : i ∉ (bootstrap accounts schedule).indexesCalled :=
    fun hi => h ((mem_indexesCalled accounts schedule i).mp hi)
  simp [deliver, hi]

/-- The addresses of the registry are those of the loop positions of the lookups that
have completed, in completion order. -/
theorem oracles_positions (accounts : List Address) (schedule : List Callback) :
    ∃ done : List Nat, done.Sublist (schedule.filterMap Callback.lookupPosition)
      ∧ (∀ j ∈ done, j ∈ loopPositions)
      ∧ (bootstrap accounts schedule).Oracles.map (fun o => o.address)
          = done.map (fun j => accounts[j]?) := by
  induction schedule using List.reverseRecOn with
  | nil => exact ⟨[], by simp, by simp, by simp [bootstrap_nil]⟩
  | append_singleton schedule c ih =>
    obtain ⟨done, hsub, hmem, hO⟩ := ih
    cases c with
    | registerDone i error =>
      refine ⟨done, ?_, hmem, ?_⟩
      · simpa [List.filterMap_append, Callback.lookupPosition] using hsub
      · rw [oracles_registerDone]; exact hO
    | indexesDone i error result =>
      by_cases hi : i ∈ loopPositions ∧ ∃ e, Callback.registerDone i e ∈ schedule
      · rw [oracles_indexesDone accounts schedule i error result hi]
        refine ⟨done ++ [i], ?_, ?_, ?_⟩
        · simpa [List.filterMap_append, Callback.lookupPosition] using
            hsub.append (List.Sublist.refl [i])
        · intro j hj
          rcases List.mem_append.mp hj with hj | hj
          · exact hmem j hj
          · rw [List.mem_singleton] at hj; exact hj ▸ hi.1
        · simp [hO]
      · rw [oracles_indexesDone_uncalled accounts schedule i error result hi]
        refine ⟨done, ?_, hmem, hO⟩
        simpa [List.filterMap_append, Callback.lookupPosition] using
          hsub.trans (List.sublist_append_left _ [i])

/-- C5, amended: the error reported by a registerOracle completion has no influence on
the bootstrap; after every schedule of other completions, the completion of the
registration of a loop position i, with or without error, makes the bootstrap call
getMyIndexes from accounts[i], and whatever is delivered in between, the completion of
that lookup adds the entry of accounts[i] with the returned value to the registry; a
later request is answered on behalf of exactly the entries whose stored value passes
the match test. -/
theorem registration_error_ignored (accounts : List Address) (schedule : List Callback) :
    bootstrap accounts schedule
      = bootstrap accounts (schedule.map Callback.withoutRegisterError)
    ∧ (∀ (i : Nat) (error : Option String), ORACLE_OFFSET ≤ i → i < ORACLE_COUNT →
        (bootstrap accounts (schedule ++ [Callback.registerDone i error])).effects
          = (bootstrap accounts schedule).effects ++ [Effect.getMyIndexes accounts[i]?])
    ∧ (∀ (i : Nat) (error error' : Option String) (result : JSValue)
        (later : List Callback), ORACLE_OFFSET ≤ i → i < ORACLE_COUNT →
        (bootstrap accounts (schedule ++ [Callback.registerDone i error] ++ later
            ++ [Callback.indexesDone i error' result])).Oracles
          = (bootstrap accounts (schedule ++ [Callback.registerDone i error] ++ later)).Oracles
            ++ [{ address := accounts[i]?, index := result }])
    ∧ ∀ (random : Nat → UnitDouble) (error : Option String) (ev : ReturnValues),
        submissions (handleOracleRequest (bootstrap accounts schedule).Oracles random error
            (some ⟨some ev⟩)).effects
          = ((bootstrap accounts schedule).Oracles.filter (matchTest ev.index)).map
              (responseOf ev (randomStatusCode (random 0))) := by
  refine ⟨?_, ?_, ?_, fun random error ev => submissions_handle _ random error ev⟩
  · simp only [bootstrap, foldl_withoutRegisterError]
  · intro i error hlo hhi
    exact effects_registerDone accounts schedule i error ((mem_loopPositions i).mpr ⟨hlo, hhi⟩)
  · intro i error error' result later hlo hhi
    exact oracles_indexesDone accounts _ i error' result
      ⟨(mem_loopPositions i).mpr ⟨hlo, hhi⟩, error, by simp⟩

/-- C5, witness: in the pool of 50 accounts the registration of position 21 has
completed when the registration of position 20 fails; the lookup of position 20 is
called and its result is stored after the lookup of position 21 has completed. -/
theorem registration_error_ignored_witness :
    (ORACLE_OFFSET ≤ 20 ∧ 20 < ORACLE_COUNT)
    ∧ (bootstrap accountPool
        ([Callback.registerDone 21 none] ++ [Callback.registerDone 20 (some "revert")]
          ++ [Callback.indexesDone 21 none (decodedUintArray [2, 5, 8])]
          ++ [Callback.indexesDone 20 none (decodedUintArray [4])])).Oracles
      = (bootstrap accountPool
        ([Callback.registerDone 21 none] ++ [Callback.registerDone 20 (some "revert")]
          ++ [Callback.indexesDone 21 none (decodedUintArray [2, 5, 8])])).Oracles
        ++ [{ address := accountPool[20]?, index := decodedUintArray [4] }] :=
  ⟨by decide,
    (registration_error_ignored accountPool [Callback.registerDone 21 none]).2.2.1 20
      (some "revert") none (decodedUintArray [4])
      [Callback.indexesDone 21 none (decodedUintArray [2, 5, 8])] (by decide) (by decide)⟩

/-- C9, counterexample: when positions 20 and 21 of the pool hold the same address and
both registrations complete, the Oracles list holds two entries with that address; and
in a pool of distinct addresses, when the registration of position 20 completes twice,
the Oracles list holds two entries with the address of position 20. -/
theorem repeated_address_added_twice :
    (bootstrap repeatingPool
        [Callback.registerDone 20 none, Callback.registerDone 21 none,
         Callback.indexesDone 20 none (decodedUintArray [2, 5, 8]),
         Callback.indexesDone 21 none (decodedUintArray [2, 5, 8])]).Oracles
      = [{ address := some "20", index := decodedUintArray [2, 5, 8] },
         { address := some "20", index := decodedUintArray [2, 5, 8] }]
    ∧ ¬ ((bootstrap repeatingPool
        [Callback.registerDone 20 none, Callback.registerDone 21 none,
         Callback.indexesDone 20 none (decodedUintArray [2, 5, 8]),
         Callback.indexesDone 21 none (decodedUintArray [2, 5, 8])]).Oracles.map
          (fun o => o.address)).Nodup
    ∧ (bootstrap accountPool
        [Callback.registerDone 20 none, Callback.registerDone 20 none,
         Callback.indexesDone 20 none (decodedUintArray [2, 5, 8]),
         Callback.indexesDone 20 none (decodedUintArray [2, 5, 8])]).Oracles
      = [{ address := some "20", index := decodedUintArray [2, 5, 8] },
         { address := some "20", index := decodedUintArray [2, 5, 8] }]
    ∧ ¬ ((bootstrap accountPool
        [Callback.registerDone 20 none, Callback.registerDone 20 none,
         Callback.indexesDone 20 none (decodedUintArray [2, 5, 8]),
         Callback.indexesDone 20 none (decodedUintArray [2, 5, 8])]).Oracles.map
          (fun o => o.address)).Nodup := by
  have hO : (bootstrap repeatingPool
        [Callback.registerDone 20 none, Callback.registerDone 21 none,
         Callback.indexesDone 20 none (decodedUintArray [2, 5, 8]),
         Callback.indexesDone 21 none (decodedUintArray [2, 5, 8])]).Oracles
      = [{ address := some "20", index := decodedUintArray [2, 5, 8] },
         { address := some "20", index := decodedUintArray [2, 5, 8] }] := by
    rw [bootstrap, registerLoop_start]
    decide
  have hT : (bootstrap accountPool
        [Callback.registerDone 20 none, Callback.registerDone 20 none,
         Callback.indexesDone 20 none (decodedUintArray [2, 5, 8]),
         Callback.indexesDone 20 none (decodedUintArray [2, 5, 8])]).Oracles
      = [{ address := some "20", index := decodedUintArray [2, 5, 8] },
         { address := some "20", index := decodedUintArray [2, 5, 8] }] := by
    rw [bootstrap, registerLoop_start]
    decide
  refine ⟨hO, ?_, hT, ?_⟩
  · rw [hO]; decide
  · rw [hT]; decide

/-- C9, amended: the Oracles list is empty before any completion, every completion of
a getMyIndexes call that was made (for a loop position 20..39 whose registration has
completed) appends exactly one entry, the address at that position with the returned
value, and no other completion changes the list; when the addresses at positions
20..39 of the pool are pairwise distinct and no position has two completed lookups,
the list holds at most one entry per address. -/
theorem one_entry_per_completion (accounts : List Address) (schedule : List Callback) :
    (bootstrap accounts []).Oracles = []
    ∧ (∀ (i : Nat) (error : Option String) (result : JSValue),
        (ORACLE_OFFSET ≤ i ∧ i < ORACLE_COUNT)
          ∧ (∃ e, Callback.registerDone i e ∈ schedule) →
        (bootstrap accounts (schedule ++ [Callback.indexesDone i error result])).Oracles
          = (bootstrap accounts schedule).Oracles
            ++ [{ address := accounts[i]?, index := result }])
    ∧ (∀ (i : Nat) (error : Option String) (result : JSValue),
        ¬ ((ORACLE_OFFSET ≤ i ∧ i < ORACLE_COUNT)
          ∧ (∃ e, Callback.registerDone i e ∈ schedule)) →
        (bootstrap accounts (schedule ++ [Callback.indexesDone i error result])).Oracles
          = (bootstrap accounts schedule).Oracles)
    ∧ (∀ (i : Nat) (error : Option String),
        (bootstrap accounts (schedule ++ [Callback.registerDone i error])).Oracles
          = (bootstrap accounts schedule).Oracles)
    ∧ ((loopPositions.map (fun j => accounts[j]?)).Nodup →
        (schedule.filterMap Callback.lookupPosition).Nodup →
        ((bootstrap accounts schedule).Oracles.map (fun o => o.address)).Nodup) := by
  refine ⟨by rw [bootstrap_nil], ?_, ?_, fun i error => oracles_registerDone accounts schedule i error, ?_⟩
  · intro i error result h
    exact oracles_indexesDone accounts schedule i error result
      ⟨(mem_loopPositions i).mpr h.1, h.2⟩
  · intro i error result h
    exact oracles_indexesDone_uncalled accounts schedule i error result
      (fun h' => h ⟨(mem_loopPositions i).mp h'.1, h'.2⟩)
  · intro hdistinct honce
    obtain ⟨done, hsub, hmem, hO⟩ := oracles_positions accounts schedule
    rw [hO]
    refine List.Nodup.map_on ?_ (honce.sublist hsub)
    intro x hx y hy hxy
    exact List.inj_on_of_nodup_map hdistinct (hmem x hx) (hmem y hy) hxy

/-- C9, witness: in the pool of 50 accounts with pairwise distinct addresses the lookups
of positions 21 and 20 complete once each; the list holds one entry for each of the two
addresses. -/
theorem one_entry_per_completion_witness :
    (loopPositions.map (fun j => accountPool[j]?)).Nodup
    ∧ ([Callback.registerDone 20 none, Callback.registerDone 21 none,
        Callback.indexesDone 21 none (decodedUintArray [2, 5, 8]),
        Callback.indexesDone 20 none (decodedUintArray [4])].filterMap
          Callback.lookupPosition).Nodup
    ∧ (bootstrap accountPool
        [Callback.registerDone 20 none, Callback.registerDone 21 none,
         Callback.indexesDone 21 none (decodedUintArray [2, 5, 8]),
         Callback.indexesDone 20 none (decodedUintArray [4])]).Oracles.map (fun o => o.address)
      = [some "21", some "20"]
    ∧ ((bootstrap accountPool
        [Callback.registerDone 20 none, Callback.registerDone 21 none,
         Callback.indexesDone 21 none (decodedUintArray [2, 5, 8]),
         Callback.indexesDone 20 none (decodedUintArray [4])]).Oracles.map
          (fun o => o.address)).Nodup :=
  ⟨by decide, by decide,
    by rw [bootstrap, registerLoop_start]; decide,
    (one_entry_per_completion accountPool
      [Callback.registerDone 20 none, Callback.registerDone 21 none,
       Callback.indexesDone 21 none (decodedUintArray [2, 5, 8]),
       Callback.indexesDone 20 none (decodedUintArray [4])]).2.2.2.2 (by decide) (by decide)⟩

/-- C10: for a pool of at least 40 accounts and every order and outcome of the
completions, the registerOracle calls of the bootstrap are exactly one call for each
of the accounts at positions 20..39, in that order, 20 in all; every address the
bootstrap reads is accounts[j] for a position 20 ≤ j < 40 within the pool; and the
registerOracle calls are the same for every other schedule of completions. -/
theorem register_calls_fixed (accounts : List Address) (h : ORACLE_COUNT ≤ accounts.length)
    (schedule : List Callback) :
    registerCalls (bootstrap accounts schedule).effects
      = ((accounts.drop ORACLE_OFFSET).take (ORACLE_COUNT - ORACLE_OFFSET)).map
          (fun a => Effect.registerOracle (some a) 1 9999999)
    ∧ (registerCalls (bootstrap accounts schedule).effects).length = 20
    ∧ (∀ e ∈ (bootstrap accounts schedule).effects,
        ∃ j a, ORACLE_OFFSET ≤ j ∧ j < ORACLE_COUNT ∧ accounts[j]? = some a
          ∧ (e = Effect.registerOracle (some a) 1 9999999
            ∨ e = Effect.getMyIndexes (some a)
            ∨ e = Effect.logRegistered (some a)))
    ∧ ∀ schedule' : List Callback,
        registerCalls (bootstrap accounts schedule').effects
          = registerCalls (bootstrap accounts schedule).effects := by
  have hcalls : ∀ sch : List Callback, registerCalls (bootstrap accounts sch).effects
      = ((accounts.drop ORACLE_OFFSET).take (ORACLE_COUNT - ORACLE_OFFSET)).map
          (fun a => Effect.registerOracle (some a) 1 9999999) := by
    intro sch
    obtain ⟨_, _, hR, _⟩ := registering_bootstrap accounts sch
    rw [hR]
    have := congrArg (List.map (fun a => Effect.registerOracle a 1 9999999))
      (loop_reads accounts h)
    simpa [List.map_map, Function.comp] using this
  refine ⟨hcalls schedule, ?_, ?_, fun sch => by rw [hcalls sch, hcalls schedule]⟩
  · rw [hcalls schedule]
    simp only [ORACLE_OFFSET, ORACLE_COUNT] at h ⊢
    simp [List.length_take, List.length_drop]
    omega
  · intro e he
    obtain ⟨_, _, _, hE⟩ := registering_bootstrap accounts schedule
    obtain ⟨j, hj, hje⟩ := hE e he
    have hjb := (mem_loopPositions j).mp hj
    have hlt : j < accounts.length := by omega
    refine ⟨j, accounts[j], hjb.1, hjb.2, List.getElem?_eq_getElem hlt, ?_⟩
    rw [List.getElem?_eq_getElem hlt] at hje
    exact hje

/-- C10, witness: the pool of 50 accounts, the registration of position 20 failing. -/
theorem register_calls_fixed_witness :
    ORACLE_COUNT ≤ accountPool.length
    ∧ (registerCalls (bootstrap accountPool
        [Callback.registerDone 20 (some "revert")]).effects).length = 20 :=
  ⟨by decide,
    (register_calls_fixed accountPool (by decide) [Callback.registerDone 20 (some "revert")]).2.1⟩

theorem fillLoop_eq (accts : List Address) (n : Nat) :
    ∀ (list : List (Option Address)) (counter : Nat), list.length + n = 5 →
      fillLoop accts list counter
        = (list ++ (List.range' counter n).map (fun j => accts[j]?), counter + n) := by
  induction n with
  | zero =>
    intro list counter h
    rw [fillLoop]
    have : ¬ list.length < 5 := by omega
    simp [this]
  | succ n ih =>
    intro list counter h
    rw [fillLoop]
    have : list.length < 5 := by omega
    simp only [this, if_true]
    rw [ih _ _ (by simp; omega)]
    simp [List.range'_succ]
    omega

theorem reads_eq_slice (accts : List Address) (start len : Nat)
    (h : start + len ≤ accts.length) :
    (List.range' start len).map (fun j => accts[j]?)
      = ((accts.drop start).take len).map some := by
  apply List.ext_getElem?
  intro k
  by_cases hk : k < len
  · have h1 : start + k < accts.length := by omega
    simp [List.getElem?_map, List.getElem?_take, List.getElem?_drop, List.getElem?_range', hk,
      List.getElem?_eq_getElem h1]
  · simp [List.getElem?_map, List.getElem?_take, List.getElem?_drop, List.getElem?_range', hk]
    omega

theorem initializeContract_eq (accts : List Address) (callbackThrows : Bool) :
    initializeContract accts callbackThrows
      = { contract :=
            { owner := accts[0]?,
              airlines := (List.range' 1 5).map (fun j => accts[j]?),
              passengers := (List.range' 6 5).map (fun j => accts[j]?) },
          effects :=
            [DappEffect.logOwner accts[0]?,
             DappEffect.logAirlines ((List.range' 1 5).map (fun j => accts[j]?)),
             DappEffect.logPassengers ((List.range' 6 5).map (fun j => accts[j]?)),
             DappEffect.callback]
            ++ (if callbackThrows then [DappEffect.logException] else []) } := by
  have h1 := fillLoop_eq accts 5 [] 1 rfl
  have h2 := fillLoop_eq accts 5 [] 6 rfl
  simp only [List.nil_append] at h1 h2
  simp only [initializeContract, initializeCallback, Contract.constructed, h1, h2]

/-- C11: for an account list of at least 11 accounts, the getAccounts callback of
initialize, run on the constructed object, ends with owner = accts[0], airlines =
accts[1..5] and passengers = accts[6..10], each list of exactly 5 entries in account
order, read at the positions 1..5 and 6..10, which are disjoint from each other and
from position 0; the callback is invoked exactly once, after the three fields are
set. -/
theorem initialize_assigns_roles (accts : List Address) (h : 11 ≤ accts.length)
    (callbackThrows : Bool) :
    (∃ a, accts[0]? = some a
        ∧ (initializeContract accts callbackThrows).contract.owner = some a)
    ∧ (initializeContract accts callbackThrows).contract.airlines
        = ((accts.drop 1).take 5).map some
    ∧ (initializeContract accts callbackThrows).contract.passengers
        = ((accts.drop 6).take 5).map some
    ∧ (initializeContract accts callbackThrows).contract.airlines.length = 5
    ∧ (initializeContract accts callbackThrows).contract.passengers.length = 5
    ∧ (initializeContract accts callbackThrows).contract.airlines
        = (List.range' 1 5).map (fun j => accts[j]?)
    ∧ (initializeContract accts callbackThrows).contract.passengers
        = (List.range' 6 5).map (fun j => accts[j]?)
    ∧ ([0] ++ List.range' 1 5 ++ List.range' 6 5).Nodup
    ∧ (initializeContract accts callbackThrows).effects.count DappEffect.callback = 1
    ∧ (initializeContract accts false).effects.getLast? = some DappEffect.callback := by
  have h0 : 0 < accts.length := by omega
  rw [initializeContract_eq, initializeContract_eq]
  refine ⟨⟨accts[0], List.getElem?_eq_getElem h0, List.getElem?_eq_getElem h0⟩,
    reads_eq_slice accts 1 5 (by omega), reads_eq_slice accts 6 5 (by omega),
    by simp, by simp, rfl, rfl, by decide, ?_, by simp⟩
  cases callbackThrows <;> simp [List.count_cons]

/-- C11, witness: the pool of 50 accounts. -/
theorem initialize_assigns_roles_witness :
    11 ≤ accountPool.length
    ∧ (initializeContract accountPool false).contract.airlines
        = ((accountPool.drop 1).take 5).map some
    ∧ (initializeContract accountPool false).contract.passengers
        = ((accountPool.drop 6).take 5).map some :=
  ⟨by decide,
    (initialize_assigns_roles accountPool (by decide) false).2.1,
    (initialize_assigns_roles accountPool (by decide) false).2.2.1⟩

end FlightSurety
